import Mathlib

/-!
Verification development for the go-describe repository.

The model is a shallow embedding of the renderer revision of `describe.go`
that the specification describes: the one with the `->` reference separator,
`getTypeName`, the `PanicOnError` recovery boundary in `Describe`, the
`v.IsValid() && !v.IsZero()` gate in front of the custom-describer lookup,
and `case reflect.Func, reflect.Chan:` doing nothing.

Runtime values are modelled by an inductive `Val`.  Composite values that
carry a storage identity in Go (slices, maps, addressable structs - the
things `findDuplicatesInternal` keys its occurrence-count map on) are
represented as `Val.comp id`, where `id` stands for the `uintptr` identity
and a heap (an association list from identities to node contents) holds the
children.  Cyclic value graphs are expressed through the heap, exactly as
cyclic Go data is expressed through addresses.  Both traversal passes are
written as fuel-indexed interpreters returning `none` when the fuel runs
out, so statements about termination and non-termination of the Go code
become statements about existence (or impossibility) of sufficient fuel.

Go arrays are not modelled separately from slices: the scanner revision in
`describe.go` calls `reflect.Value.Pointer()` for both kinds, and nothing
a claim depends on distinguishes them, so `Node.arrNode` covers both.
The `reflect.Value` / `reflect.Type` pretty-printing special case at the
top of `describeReflect` is outside every claim and is not modelled.
-/

/-- Association-list lookup, modelling reads from a Go map. -/
def lookupL {α β : Type} [DecidableEq α] (k : α) : List (α × β) → Option β
  | [] => none
  | (a, b) :: rest => if a = k then some b else lookupL k rest

-- ---------------------------------------------------------------------
-- Hexadecimal formatting (fmt.Sprintf "0x%0Nx")
-- ---------------------------------------------------------------------

/-- One lowercase hexadecimal digit, as produced by Go's `%x` verb. -/
def hexDigit (n : Nat) : Char :=
  if n < 10 then Char.ofNat (48 + n) else Char.ofNat (87 + n)

/-- Digits of `n` in base 16, most significant first, prepended to `acc`.
The first argument is fuel (structural, so that the definition reduces in
the kernel); one digit is cut off `n` per unit, so any fuel of at least
`hexLen n` gives the exact digit string. -/
def natToHexF : Nat → Nat → List Char → List Char
  | 0, _, acc => acc
  | fuel + 1, n, acc =>
    if n < 16 then hexDigit n :: acc
    else natToHexF fuel (n / 16) (hexDigit (n % 16) :: acc)

/-- Number of base-16 digits of `n` (at least 1). -/
def hexLen (n : Nat) : Nat :=
  if h : n < 16 then 1 else hexLen (n / 16) + 1
termination_by n
decreasing_by
  exact Nat.div_lt_self (by omega) (by omega)

/-- `fmt.Sprintf "%0*x"`: `n` in lowercase hex, left-padded with zeros to a
minimum width of `d` digits (never truncated). -/
def toHexPad (d n : Nat) : String :=
  let ds := natToHexF (n + 1) n []
  String.mk (List.replicate (d - ds.length) '0' ++ ds)

-- ---------------------------------------------------------------------
-- Unsigned integer rendering (describeUint8 .. describeUint)
-- ---------------------------------------------------------------------

/-- `describeUint8` in describe.go: `0x%02x` when in hex context, `%v`
otherwise. -/
def describeUint8 (n : Nat) (asHex : Bool) : String :=
  if asHex then "0x" ++ toHexPad 2 n else toString n

/-- `describeUint16` in describe.go: `0x%04x` when in hex context. -/
def describeUint16 (n : Nat) (asHex : Bool) : String :=
  if asHex then "0x" ++ toHexPad 4 n else toString n

/-- `describeUint32` in describe.go: `0x%08x` when in hex context. -/
def describeUint32 (n : Nat) (asHex : Bool) : String :=
  if asHex then "0x" ++ toHexPad 8 n else toString n

/-- `describeUint64` in describe.go: `0x%016x` when in hex context. -/
def describeUint64 (n : Nat) (asHex : Bool) : String :=
  if asHex then "0x" ++ toHexPad 16 n else toString n

/-- `describeUint` in describe.go: the platform-width unsigned type.  The
source formats it with `0x%08x` unconditionally - a fixed minimum width of
8 hex digits, with no dependence on the host pointer width. -/
def describeUint (n : Nat) (asHex : Bool) : String :=
  if asHex then "0x" ++ toHexPad 8 n else toString n

/-- The unsigned-integer kinds of the reflect package that describe.go
dispatches on (`Uint8 Uint16 Uint32 Uint64 Uint`). -/
inductive UKind : Type
  | u8 | u16 | u32 | u64 | uptr
deriving DecidableEq, Repr

/-- Kind dispatch over the five `describeUintN` helpers, mirroring the
`case reflect.Uint8: ... case reflect.Uint:` arms of `describeReflect`. -/
def describeUintK : UKind → Nat → Bool → String
  | .u8, n, asHex => describeUint8 n asHex
  | .u16, n, asHex => describeUint16 n asHex
  | .u32, n, asHex => describeUint32 n asHex
  | .u64, n, asHex => describeUint64 n asHex
  | .uptr, n, asHex => describeUint n asHex

/-- Concrete type name of an unsigned kind, for the hook registry key. -/
def uintTypeName : UKind → String
  | .u8 => "uint8"
  | .u16 => "uint16"
  | .u32 => "uint32"
  | .u64 => "uint64"
  | .uptr => "uint"

-- ---------------------------------------------------------------------
-- Values and the heap
-- ---------------------------------------------------------------------

/-- A runtime value as `describeReflect` observes it.

`leaf ty text isZero` covers the kinds the source prints with `%v`
(bools, signed ints, floats, ...): `ty` is the concrete type name used as
the hook-registry key, `text` the `%v` rendering, `isZero` the result of
`reflect.Value.IsZero`.  `comp id` is a composite with storage identity
`id` (slice, map, or addressable struct - the kinds the duplicate finder
tracks); its contents live in the heap.  `ptrv`/`intfv` take `none` for a
nil pointer/interface.  `funcv`/`chanv` model functions and channels;
`invalidV` models an invalid `reflect.Value`. -/
inductive Val : Type
  | leaf (ty text : String) (isZero : Bool)
  | strv (s : String)
  | uintv (k : UKind) (n : Nat)
  | ptrv (target : Option Val)
  | intfv (target : Option Val)
  | comp (id : Nat)
  | chanv (ty : String)
  | funcv (isNil : Bool) (params rets : List String)
  | invalidV

/-- Contents of one identity-carrying composite.

`arrNode` is a slice (`isNil` records `IsNil`, which the renderer never
consults for slices); `mapNode` a map; `structNode` a struct, whose
`addressable` flag records `CanAddr` - when it is false both passes skip
the identity bookkeeping for the node, exactly as the `break` /
plain-recursion arms of the source do. -/
inductive Node : Type
  | arrNode (elemTy : String) (elemUnsigned isNil : Bool) (elems : List Val)
  | mapNode (keyTy valTy : String) (isNil : Bool) (entries : List (Val × Val))
  | structNode (name : String) (addressable : Bool) (fields : List (String × Val))

/-- The heap: storage identity to composite contents. -/
abbrev Heap : Type := List (Nat × Node)

/-- Fetch a composite's contents by identity. -/
def lookupNode (h : Heap) (id : Nat) : Option Node := lookupL id h

/-- Concrete type name of a value, the key used for the custom-describer
registry lookup (`customDescribers[v.Type()]`). -/
def typeOfV (h : Heap) : Val → String
  | .leaf ty _ _ => ty
  | .strv _ => "string"
  | .uintv k _ => uintTypeName k
  | .ptrv _ => "pointer"
  | .intfv _ => "interface"
  | .comp id =>
    match lookupNode h id with
    | some (.structNode name _ _) => name
    | some (.arrNode elemTy _ _ _) => "[]" ++ elemTy
    | some (.mapNode kt vt _ _) => "map[" ++ kt ++ "]" ++ vt
    | none => "?"
  | .chanv ty => "chan " ++ ty
  | .funcv _ _ _ => "func"
  | .invalidV => "invalid"

/-- `reflect.Value.IsValid`. -/
def isValidV : Val → Bool
  | .invalidV => false
  | _ => true

/-- Fueled `reflect.Value.IsZero`: zero-ness of a struct recurses into its
fields through the heap.  Go's type system forbids a struct containing
itself by value, so on heaps that model Go data a fuel of one more than
the heap size always suffices; on fuel exhaustion we answer `false`. -/
def isZeroVF (h : Heap) : Nat → Val → Bool
  | 0, _ => false
  | fuel + 1, v =>
    match v with
    | .leaf _ _ z => z
    | .strv s => s = ""
    | .uintv _ n => n = 0
    | .ptrv o => o.isNone
    | .intfv o => o.isNone
    | .comp id =>
      match lookupNode h id with
      | some (.arrNode _ _ isNil _) => isNil
      | some (.mapNode _ _ isNil _) => isNil
      | some (.structNode _ _ fields) => fields.all (fun p => isZeroVF h fuel p.2)
      | none => false
    | .chanv _ => false
    | .funcv isNil _ _ => isNil
    | .invalidV => false

/-- `v.IsZero()` with the canonical fuel. -/
def isZeroV (h : Heap) (v : Val) : Bool := isZeroVF h (h.length + 1) v

-- ---------------------------------------------------------------------
-- Custom describer registry
-- ---------------------------------------------------------------------

/-- A custom describer: may return a string or panic (modelled as
`Except.error` carrying the panic message). -/
abbrev Hook : Type := Val → Except String String

/-- The `customDescribers` map: type name to possibly-nil hook function
(`SetCustomDescriber` can store a nil `CustomDescriber`). -/
abbrev Registry : Type := List (String × Option Hook)

/-- The compound lookup the renderer performs:
`customDescriber, ok := customDescribers[v.Type()]; ok && customDescriber != nil`.
A stored-but-nil hook behaves exactly like an absent entry. -/
def activeHook (reg : Registry) (ty : String) : Option Hook :=
  match lookupL ty reg with
  | some (some d) => some d
  | _ => none

/-- `SetCustomDescriber`: Go map assignment - replace the existing entry
for `t` if present, otherwise add one. -/
def setCustomDescriber (reg : Registry) (t : String) (d : Option Hook) : Registry :=
  if (lookupL t reg).isSome then
    reg.map (fun p => if p.1 = t then (t, d) else p)
  else reg ++ [(t, d)]

/-- Registry with every entry for type `t` removed (for comparison: the
source never removes entries, it only stores nil hooks). -/
def removeDescriber (reg : Registry) (t : String) : Registry :=
  reg.filter (fun p => p.1 ≠ t)

-- ---------------------------------------------------------------------
-- Pass 1: the duplicates finder (findDuplicatesInternal / findDuplicates)
-- ---------------------------------------------------------------------

/-- The occurrence-count map `seenPointerCounts`, as an association list in
insertion order (Go map content; iteration order is treated separately). -/
abbrev Counts : Type := List (Nat × Nat)

/-- Increment the recorded count of identity `id` (`seenPointerCounts[ptr] = count + 1`). -/
def bumpCount (cs : Counts) (id : Nat) : Counts :=
  cs.map (fun p => if p.1 = id then (p.1, p.2 + 1) else p)

/-- Work items of the scan pass: one value, or a list of children still
to walk.  A single structurally-recursive engine over these keeps the
definition kernel-reducible. -/
inductive STask : Type
  | one (v : Val)
  | many (vs : List Val)

/-- The engine of `findDuplicatesInternal`: walk the value graph counting
occurrences of each composite identity, stopping (after bumping the count)
at any identity already present in the map.  Map children are the map's
*values only* - the source iterates `iter.Value()` and never `iter.Key()`.
Non-addressable structs are walked without identity bookkeeping.
Fuel-indexed and structural in the fuel; `none` = the fuel ran out. -/
def scanT (h : Heap) : Nat → STask → Counts → Option Counts
  | 0, _, _ => none
  | fuel + 1, .one v, cs =>
    match v with
    | .ptrv (some t) => scanT h fuel (.one t) cs
    | .intfv (some t) => scanT h fuel (.one t) cs
    | .comp id =>
      match lookupNode h id with
      | some (.arrNode _ _ _ elems) =>
        match lookupL id cs with
        | some _ => some (bumpCount cs id)
        | none => scanT h fuel (.many elems) (cs ++ [(id, 1)])
      | some (.mapNode _ _ _ entries) =>
        match lookupL id cs with
        | some _ => some (bumpCount cs id)
        | none => scanT h fuel (.many (entries.map Prod.snd)) (cs ++ [(id, 1)])
      | some (.structNode _ addressable fields) =>
        if addressable then
          match lookupL id cs with
          | some _ => some (bumpCount cs id)
          | none => scanT h fuel (.many (fields.map Prod.snd)) (cs ++ [(id, 1)])
        else scanT h fuel (.many (fields.map Prod.snd)) cs
      | none => some cs
    | _ => some cs
  | _ + 1, .many [], cs => some cs
  | fuel + 1, .many (x :: xs), cs =>
    match scanT h fuel (.one x) cs with
    | none => none
    | some cs2 => scanT h fuel (.many xs) cs2

/-- `findDuplicatesInternal` on a single value. -/
def findDuplicatesInternal (h : Heap) (fuel : Nat) (v : Val) (cs : Counts) :
    Option Counts :=
  scanT h fuel (.one v) cs

/-- The scan pass from the root with an empty counts map. -/
def scanCounts (h : Heap) (fuel : Nat) (v : Val) : Option Counts :=
  findDuplicatesInternal h fuel v []

/-- The label-assignment loop of `findDuplicates`: `referenceName := 1`,
then for each entry of the counts map in iteration order, give the next
label to every identity whose count exceeds 1. -/
def buildRefNamesAux : Nat → Counts → List (Nat × Nat)
  | _, [] => []
  | nextName, (p, c) :: rest =>
    if 1 < c then (p, nextName) :: buildRefNamesAux (nextName + 1) rest
    else buildRefNamesAux nextName rest

/-- `findDuplicates`, second half: counts (in a given iteration order) to
the reference-name table.  Which iteration order Go's `range` delivers is
implementation-defined; it is passed in as the list order. -/
def buildReferenceNames (cs : Counts) : List (Nat × Nat) :=
  buildRefNamesAux 1 cs

-- ---------------------------------------------------------------------
-- Pass 2: the renderer (descriptionContext.describeReflect and friends)
-- ---------------------------------------------------------------------

/-- One write to the output `strings.Builder`.  First-instance reference
marks and back-references are kept as distinguished tokens so that the
ordering properties of the reference machinery can be stated structurally;
`tokenStr` flattens a token to the exact characters the source writes. -/
inductive Token : Type
  | text (s : String)
  | refMark (n : Nat)
  | backRef (n : Nat)
deriving DecidableEq, Repr

/-- The characters a token contributes to the output: a first-instance
mark is the reference name followed by the `->` separator, a back-reference
is `$` followed by the reference name. -/
def tokenStr : Token → String
  | .text s => s
  | .refMark n => toString n ++ "->"
  | .backRef n => "$" ++ toString n

/-- Per-call render state: the output builder (as emitted tokens, in
order) and the `seenReferences` set. -/
structure RState : Type where
  out : List Token
  seen : List Nat
deriving Repr

/-- Append one token to the output builder. -/
def emit (st : RState) (t : Token) : RState :=
  { st with out := st.out ++ [t] }

/-- The storage identity the reference-check switch computes: slices and
maps via `v.Pointer()`, structs via `v.Addr().Pointer()` when addressable
and nothing (the `break` arm) otherwise.  Non-composites have none. -/
def refIdOf (h : Heap) : Val → Option Nat
  | .comp id =>
    match lookupNode h id with
    | some (.arrNode _ _ _ _) => some id
    | some (.mapNode _ _ _ _) => some id
    | some (.structNode _ addressable _) => if addressable then some id else none
    | none => none
  | _ => none

/-- Result of the reference check: `stop` means a back-reference was
emitted and the node is not rendered further; `go` carries the state in
which rendering continues (with the first-instance mark already emitted
and the identity recorded in `seenReferences`, when the node is labeled
and being met for the first time). -/
inductive RefOut : Type
  | stop (st : RState)
  | go (st : RState)

/-- The reference-check block at the top of `describeReflect`. -/
def refStep (h : Heap) (labels : List (Nat × Nat)) (v : Val) (st : RState) : RefOut :=
  match refIdOf h v with
  | some id =>
    match lookupL id labels with
    | some n =>
      if st.seen.contains id then .stop (emit st (.backRef n))
      else .go { out := st.out ++ [Token.refMark n], seen := id :: st.seen }
    | none => .go st
  | none => .go st

/-- `getTypeName`: the empty interface type prints as `interface`. -/
def getTypeName (t : String) : String :=
  if t = "interface \x7b\x7d" then "interface" else t

/-- The gate in front of the custom-describer lookup:
`v.IsValid() && !v.IsZero()`. -/
def hookEligible (h : Heap) (v : Val) : Bool :=
  isValidV v && !(isZeroV h v)

/-- Sequence two steps of the renderer: fuel exhaustion (`none`) and
panics (`Except.error`) both cut the rest of the traversal short. -/
def rbind (r : Option (Except String RState))
    (f : RState → Option (Except String RState)) : Option (Except String RState) :=
  match r with
  | none => none
  | some (.error e) => some (.error e)
  | some (.ok st) => f st

/-- A hook function as the renderer sees it: `none` when no non-nil
custom describer is registered for the type. -/
abbrev HookFun : Type := String → Option Hook

/-- Work items of the render pass: a full `describeReflect` call on one
value, its per-kind tail (`kind`), or one of the three child loops of
`describeArray` / `describeMap` / `describeStruct` (with the `isFirst`
separator flag of the source).  A single structurally-recursive engine
over these keeps the renderer kernel-reducible. -/
inductive RTask : Type
  | one (v : Val) (asHex : Bool)
  | kind (v : Val) (asHex : Bool)
  | arrElems (asHex isFirst : Bool) (xs : List Val)
  | mapEntries (isFirst : Bool) (xs : List (Val × Val))
  | structFields (isFirst : Bool) (xs : List (String × Val))

/-- The engine of `describeReflect` and its helpers.

The `one` case is the body of `describeReflect`: reference check, then the
custom-describer gate, then the per-kind switch (the `kind` case).  The
`kind` case is the `switch v.Kind()` of the source together with the
`describeArray` / `describeMap` / `describeStruct` bodies: functions and
channels emit nothing (`case reflect.Func, reflect.Chan: // Do nothing`),
and there is no nil check for slices, maps or channels.  Fuel-indexed and
structural in the fuel; `none` means the fuel ran out. -/
def renderT (hooks : HookFun) (h : Heap) (labels : List (Nat × Nat)) :
    Nat → RTask → RState → Option (Except String RState)
  | 0, _, _ => none
  | fuel + 1, .one v asHex, st =>
    match refStep h labels v st with
    | .stop st2 => some (.ok st2)
    | .go st2 =>
      if hookEligible h v then
        match hooks (typeOfV h v) with
        | some hk =>
          match hk v with
          | .ok s => some (.ok (emit st2 (.text s)))
          | .error e => some (.error e)
        | none => renderT hooks h labels fuel (.kind v asHex) st2
      else renderT hooks h labels fuel (.kind v asHex) st2
  | fuel + 1, .kind v asHex, st =>
    match v with
    | .intfv none => some (.ok (emit st (.text "nil")))
    | .intfv (some t) =>
      renderT hooks h labels fuel (.one t false) (emit st (.text "@"))
    | .ptrv none => some (.ok (emit st (.text "nil")))
    | .ptrv (some t) =>
      renderT hooks h labels fuel (.one t false) (emit st (.text "*"))
    | .comp id =>
      match lookupNode h id with
      | some (.arrNode elemTy elemUnsigned _ elems) =>
        rbind (renderT hooks h labels fuel (.arrElems elemUnsigned true elems)
            (emit (emit st (.text (getTypeName elemTy))) (.text "[")))
          (fun st2 => some (.ok (emit st2 (.text "]"))))
      | some (.mapNode keyTy valTy _ entries) =>
        rbind (renderT hooks h labels fuel (.mapEntries true entries)
            (emit (emit (emit (emit st
              (.text (getTypeName keyTy))) (.text ":"))
              (.text (getTypeName valTy))) (.text "\x7b")))
          (fun st2 => some (.ok (emit st2 (.text "\x7d"))))
      | some (.structNode name _ fields) =>
        rbind (renderT hooks h labels fuel (.structFields true fields)
            (emit (emit st (.text (getTypeName name))) (.text "(")))
          (fun st2 => some (.ok (emit st2 (.text ")"))))
      | none => some (.ok st)
    | .strv s => some (.ok (emit st (.text ("\"" ++ s ++ "\""))))
    | .chanv _ => some (.ok st)
    | .funcv _ _ _ => some (.ok st)
    | .uintv k n => some (.ok (emit st (.text (describeUintK k n asHex))))
    | .leaf _ txt _ => some (.ok (emit st (.text txt)))
    | .invalidV => some (.ok (emit st (.text "invalid")))
  | _ + 1, .arrElems _ _ [], st => some (.ok st)
  | fuel + 1, .arrElems asHex isFirst (x :: xs), st =>
    rbind (renderT hooks h labels fuel (.one x asHex)
        (if isFirst then st else emit st (.text " ")))
      (fun st2 => renderT hooks h labels fuel (.arrElems asHex false xs) st2)
  | _ + 1, .mapEntries _ [], st => some (.ok st)
  | fuel + 1, .mapEntries isFirst ((k, v) :: rest), st =>
    rbind (renderT hooks h labels fuel (.one k false)
        (if isFirst then st else emit st (.text " ")))
      (fun st2 =>
        rbind (renderT hooks h labels fuel (.one v false) (emit st2 (.text "=")))
          (fun st3 => renderT hooks h labels fuel (.mapEntries false rest) st3))
  | _ + 1, .structFields _ [], st => some (.ok st)
  | fuel + 1, .structFields isFirst ((fname, v) :: rest), st =>
    rbind (renderT hooks h labels fuel (.one v false)
        (emit (emit (if isFirst then st else emit st (.text " "))
          (.text fname)) (.text "=")))
      (fun st2 => renderT hooks h labels fuel (.structFields false rest) st2)

/-- `describeReflect` on one value: the renderer entry for a node. -/
def describeReflect (hooks : HookFun) (h : Heap) (labels : List (Nat × Nat))
    (fuel : Nat) (v : Val) (asHex : Bool) (st : RState) :
    Option (Except String RState) :=
  renderT hooks h labels fuel (.one v asHex) st

/-- The default per-kind rendering: the `switch v.Kind()` tail of
`describeReflect`, reached when no custom describer applies. -/
def renderKind (hooks : HookFun) (h : Heap) (labels : List (Nat × Nat))
    (fuel : Nat) (v : Val) (asHex : Bool) (st : RState) :
    Option (Except String RState) :=
  renderT hooks h labels fuel (.kind v asHex) st

-- ---------------------------------------------------------------------
-- Top level: describe and Describe
-- ---------------------------------------------------------------------

/-- Flatten the emitted tokens to the final string. -/
def strOfTokens (ts : List Token) : String :=
  String.join (ts.map tokenStr)

/-- `descriptionContext.describe` at the token level: run the duplicates
finder, build the reference-name table from its counts, then render from a
fresh builder and empty `seenReferences`. -/
def describeTokens (hooks : HookFun) (h : Heap) (fuel : Nat) (v : Val) :
    Option (Except String (List Token)) :=
  match findDuplicatesInternal h fuel v [] with
  | none => none
  | some cs =>
    match describeReflect hooks h (buildReferenceNames cs) fuel v false ⟨[], []⟩ with
    | none => none
    | some (.error e) => some (.error e)
    | some (.ok st) => some (.ok st.out)

/-- `descriptionContext.describe`: the whole two-pass operation, producing
the final string (or a panic, or `none` when the traversal does not
complete within the fuel). -/
def describeCtx (reg : Registry) (h : Heap) (fuel : Nat) (v : Val) :
    Option (Except String String) :=
  match describeTokens (activeHook reg) h fuel v with
  | none => none
  | some (.error e) => some (.error e)
  | some (.ok ts) => some (.ok (strOfTokens ts))

/-- `Describe`: wraps the two-pass operation in the `defer`/`recover`
boundary.  When `PanicOnError` is unset, a panic is converted to the
diagnostic string; when it is set, the panic propagates raw. -/
def Describe (panicOnError : Bool) (reg : Registry) (h : Heap) (fuel : Nat)
    (v : Val) : Option (Except String String) :=
  match describeCtx reg h fuel v with
  | some (.error e) =>
    if panicOnError then some (.error e)
    else some (.ok ("go-describe: Unexpected error: " ++ e))
  | r => r

/-- Modelled from the spec: the function-signature renderer (`func(...)`
and `nilfunc(...)`) of the final revision of this repository is not among
the source files; only its tests and README are.  Per the spec, a function
renders as a signature token followed by the parameter and return type
lists, each in its own parentheses, and a nil function uses the distinct
`nilfunc` marker with the same parameter/return rendering. -/
def describeFunc (isNil : Bool) (params rets : List String) : String :=
  (if isNil then "nilfunc" else "func")
    ++ "(" ++ String.intercalate ", " params ++ ")"
    ++ "(" ++ String.intercalate ", " rets ++ ")"

-- ---------------------------------------------------------------------
-- Association-list lemmas
-- ---------------------------------------------------------------------

theorem lookupL_append {α β : Type} [DecidableEq α] (k : α) (l1 l2 : List (α × β)) :
    lookupL k (l1 ++ l2) =
      match lookupL k l1 with
      | some b => some b
      | none => lookupL k l2 := by
  induction l1 with
  | nil => simp [lookupL]
  | cons p rest ih =>
    by_cases hp : p.1 = k
    · simp [lookupL, hp]
    · simpa [lookupL, hp] using ih

theorem lookupL_none_iff {α β : Type} [DecidableEq α] (k : α) (l : List (α × β)) :
    lookupL k l = none ↔ k ∉ l.map Prod.fst := by
  induction l with
  | nil => simp [lookupL]
  | cons p rest ih =>
    by_cases hp : p.1 = k
    · simp [lookupL, hp]
    · simp [lookupL, hp, ih, Ne.symm hp]

theorem lookupL_isSome_iff {α β : Type} [DecidableEq α] (k : α) (l : List (α × β)) :
    (lookupL k l).isSome ↔ k ∈ l.map Prod.fst := by
  induction l with
  | nil => simp [lookupL]
  | cons p rest ih =>
    by_cases hp : p.1 = k
    · simp [lookupL, hp]
    · simp [lookupL, hp, ih, Ne.symm hp]

theorem lookupL_some_iff_mem {α β : Type} [DecidableEq α] (k : α) (c : β)
    (l : List (α × β)) (hn : (l.map Prod.fst).Nodup) :
    lookupL k l = some c ↔ (k, c) ∈ l := by
  induction l with
  | nil => simp [lookupL]
  | cons p rest ih =>
    simp only [List.map_cons, List.nodup_cons] at hn
    by_cases hp : p.1 = k
    · subst hp
      simp only [lookupL, if_pos rfl, List.mem_cons]
      constructor
      · rintro h
        left
        cases p with
        | mk a b => simp_all
      · rintro (h | h)
        · cases p with
          | mk a b => simp_all
        · exfalso
          exact hn.1 (List.mem_map.2 ⟨(p.1, c), h, rfl⟩)
    · simp only [lookupL, if_neg hp, List.mem_cons, ih hn.2]
      constructor
      · exact fun h => Or.inr h
      · rintro (h | h)
        · exfalso
          apply hp
          cases p with
          | mk a b => simp_all
        · exact h

-- ---------------------------------------------------------------------
-- Hex-width lemmas
-- ---------------------------------------------------------------------

theorem hexLen_lt {n : Nat} (hn : n < 16) : hexLen n = 1 := by
  rw [hexLen]
  simp [hn]

theorem hexLen_ge {n : Nat} (hn : ¬n < 16) : hexLen n = hexLen (n / 16) + 1 := by
  rw [hexLen]
  simp [hn]

theorem hexLen_pos (n : Nat) : 1 ≤ hexLen n := by
  by_cases hn : n < 16
  · rw [hexLen_lt hn]
  · rw [hexLen_ge hn]
    omega

theorem natToHexF_length : ∀ (fuel n : Nat) (acc : List Char),
    hexLen n ≤ fuel → (natToHexF fuel n acc).length = hexLen n + acc.length := by
  intro fuel
  induction fuel with
  | zero =>
    intro n acc hle
    have := hexLen_pos n
    omega
  | succ fuel ih =>
    intro n acc hle
    by_cases hn : n < 16
    · rw [natToHexF]
      simp [hn, hexLen_lt hn]
      omega
    · rw [natToHexF]
      simp only [hn, if_false]
      have hrec : hexLen (n / 16) ≤ fuel := by
        have := hexLen_ge hn
        omega
      rw [ih (n / 16) (hexDigit (n % 16) :: acc) hrec, hexLen_ge hn]
      simp
      omega

theorem hexLen_le_succ (n : Nat) : hexLen n ≤ n + 1 := by
  induction n using Nat.strong_induction_on with
  | _ n ih =>
    by_cases hn : n < 16
    · rw [hexLen_lt hn]
      omega
    · rw [hexLen_ge hn]
      have hdiv : n / 16 < n := Nat.div_lt_self (by omega) (by omega)
      have := ih (n / 16) hdiv
      omega

theorem hexLen_le (d : Nat) : ∀ n : Nat, 1 ≤ d → n < 16 ^ d → hexLen n ≤ d := by
  induction d with
  | zero => omega
  | succ d ih =>
    intro n _ hn
    by_cases h16 : n < 16
    · rw [hexLen_lt h16]
      omega
    · rw [hexLen_ge h16]
      have hd : 1 ≤ d := by
        by_contra hc
        have : d = 0 := by omega
        subst this
        simp [pow_one] at hn
        omega
      have hlt : n / 16 < 16 ^ d := by
        rw [Nat.div_lt_iff_lt_mul (by omega)]
        calc n < 16 ^ (d + 1) := hn
        _ = 16 ^ d * 16 := by ring
      have := ih (n / 16) hd hlt
      omega

theorem toHexPad_length (d n : Nat) :
    (toHexPad d n).length = max d (hexLen n) := by
  have hlen : (natToHexF (n + 1) n []).length = hexLen n := by
    have := natToHexF_length (n + 1) n [] (hexLen_le_succ n)
    simpa using this
  show (String.mk (List.replicate (d - (natToHexF (n + 1) n []).length) '0'
      ++ natToHexF (n + 1) n [])).length = max d (hexLen n)
  have : (String.mk (List.replicate (d - (natToHexF (n + 1) n []).length) '0'
      ++ natToHexF (n + 1) n [])).length
      = (d - (natToHexF (n + 1) n []).length) + (natToHexF (n + 1) n []).length := by
    simp [String.length]
  rw [this, hlen]
  omega

theorem toHexPad_length_of_lt (d n : Nat) (hd : 1 ≤ d) (hn : n < 16 ^ d) :
    (toHexPad d n).length = d := by
  rw [toHexPad_length]
  have := hexLen_le d n hd hn
  omega

-- ---------------------------------------------------------------------
-- C6: nil function rendering (spec-modelled)
-- ---------------------------------------------------------------------

/-- C6.  For every nil function value, the description is the full
signature - the parameter type list and the return type list, each in
parentheses - prefixed with the distinct `nilfunc` marker, and is never
the bare literal `nil` nor empty; in particular a nil function of
signature `(string,int)->(int,string)` renders as
`nilfunc(string, int)(int, string)`. -/
theorem c6_nilfunc_signature : ∀ params rets : List String,
    describeFunc true params rets =
      "nilfunc" ++ "(" ++ String.intercalate ", " params ++ ")"
        ++ "(" ++ String.intercalate ", " rets ++ ")"
    ∧ describeFunc true params rets ≠ "nil"
    ∧ describeFunc true params rets ≠ ""
    ∧ describeFunc true ["string", "int"] ["int", "string"]
        = "nilfunc(string, int)(int, string)" := by
  intro params rets
  have hform : describeFunc true params rets =
      "nilfunc" ++ "(" ++ String.intercalate ", " params ++ ")"
        ++ "(" ++ String.intercalate ", " rets ++ ")" := rfl
  have hlen : 11 ≤ (describeFunc true params rets).length := by
    rw [hform]
    simp only [String.length_append]
    have h7 : ("nilfunc" : String).length = 7 := by decide
    have h1 : ("(" : String).length = 1 := by decide
    have h2 : (")" : String).length = 1 := by decide
    omega
  refine ⟨hform, ?_, ?_, by decide⟩
  · intro hcontra
    have := congrArg String.length hcontra
    have h3 : ("nil" : String).length = 3 := by decide
    omega
  · intro hcontra
    have := congrArg String.length hcontra
    have h0 : ("" : String).length = 0 := by decide
    omega

-- ---------------------------------------------------------------------
-- C8: unsigned hexadecimal widths
-- ---------------------------------------------------------------------

/-- C8, counterexample.  The claim asserts that the platform-width
unsigned type renders with 8 or 16 hex digits depending on the host
pointer width, i.e. on a 64-bit host a `uint` in hex context would be
16 digits wide (18 characters with the `0x` prefix).  The source's
`describeUint` uses `0x%08x` unconditionally: the value 1 renders as
`0x00000001`, 8 digits on every host. -/
theorem c8_counterexample :
    describeUint 1 true = "0x00000001"
    ∧ (describeUint 1 true).length = 10
    ∧ ¬(describeUint 1 true).length = 2 + 16 := by
  refine ⟨by decide, by decide, by decide⟩

/-- C8, amended.  Inside unsigned arrays/slices, fixed-size unsigned
integers render as zero-padded hexadecimal of width 2 x the byte size of
the type (2/4/8/16 digits after the `0x` prefix); the platform-width
unsigned type always renders with a minimum width of 8 digits, regardless
of the host pointer width; outside the hex context every unsigned kind
renders in decimal.  The 4-byte unsigned slice [255,128,68,1] renders as
`uint8[0xff 0x80 0x44 0x01]`. -/
theorem c8_hex_widths : ∀ n : Nat,
    (describeUint8 n true = "0x" ++ toHexPad 2 n)
    ∧ (n < 2 ^ 8 → (describeUint8 n true).length = 2 + 2)
    ∧ (n < 2 ^ 16 → (describeUint16 n true).length = 2 + 4)
    ∧ (n < 2 ^ 32 → (describeUint32 n true).length = 2 + 8)
    ∧ (n < 2 ^ 64 → (describeUint64 n true).length = 2 + 16)
    ∧ ((describeUint n true).length = 2 + max 8 (hexLen n))
    ∧ (describeUint8 n false = toString n)
    ∧ (describeUint16 n false = toString n)
    ∧ (describeUint32 n false = toString n)
    ∧ (describeUint64 n false = toString n)
    ∧ (describeUint n false = toString n)
    ∧ describeCtx []
        [(0, Node.arrNode "uint8" true false
          [Val.uintv .u8 255, Val.uintv .u8 128, Val.uintv .u8 68, Val.uintv .u8 1])]
        10 (Val.comp 0)
        = some (Except.ok "uint8[0xff 0x80 0x44 0x01]") := by
  intro n
  have hpre : ("0x" : String).length = 2 := by decide
  have hwidth : ∀ d : Nat, 1 ≤ d → n < 16 ^ d →
      ("0x" ++ toHexPad d n).length = 2 + d := by
    intro d hd hn
    rw [String.length_append, hpre, toHexPad_length_of_lt d n hd hn]
  refine ⟨by simp [describeUint8], ?_, ?_, ?_, ?_, ?_,
    by simp [describeUint8], by simp [describeUint16], by simp [describeUint32],
    by simp [describeUint64], by simp [describeUint], by rfl⟩
  · intro hn
    simpa [describeUint8] using hwidth 2 (by omega) (by omega)
  · intro hn
    simpa [describeUint16] using hwidth 4 (by omega) (by omega)
  · intro hn
    simpa [describeUint32] using hwidth 8 (by omega) (by omega)
  · intro hn
    simpa [describeUint64] using hwidth 16 (by omega) (by omega)
  · show ("0x" ++ toHexPad 8 n).length = 2 + max 8 (hexLen n)
    rw [String.length_append, hpre, toHexPad_length]

/-- C8, witness: the amended widths at the concrete values 255 (8-bit),
65535 (16-bit) and 1 (platform-width). -/
theorem c8_witness :
    (describeUint8 255 true).length = 2 + 2
    ∧ (describeUint16 65535 true).length = 2 + 4
    ∧ (describeUint 1 true).length = 2 + max 8 (hexLen 1) := by
  refine ⟨(c8_hex_widths 255).2.1 (by omega), ?_, ?_⟩
  · exact (c8_hex_widths 65535).2.2.1 (by omega)
  · exact (c8_hex_widths 1).2.2.2.2.2.1

-- ---------------------------------------------------------------------
-- Registry lemmas
-- ---------------------------------------------------------------------

theorem lookupL_filter_ne {α β : Type} [DecidableEq α] (t k : α) (l : List (α × β)) :
    lookupL k (l.filter fun p => p.1 ≠ t) = if k = t then none else lookupL k l := by
  induction l with
  | nil => simp [lookupL]
  | cons p rest ih =>
    by_cases hpt : p.1 = t
    · rw [List.filter_cons_of_neg (by simp [hpt]), ih]
      by_cases hkt : k = t
      · simp [hkt]
      · have hpk : ¬p.1 = k := by
          rw [hpt]
          exact fun hc => hkt hc.symm
        simp [lookupL, hpk, hkt]
    · rw [List.filter_cons_of_pos (by simp [hpt])]
      by_cases hpk : p.1 = k
      · have hkt : ¬k = t := fun hc => hpt (hpk.symm ▸ hc)
        simp [lookupL, hpk, hkt]
      · simp only [lookupL, if_neg hpk]
        exact ih

theorem lookupL_map_update (l : Registry) (t : String) (d : Option Hook) (k : String) :
    lookupL k (l.map fun p => if p.1 = t then (t, d) else p)
      = if k = t then (if (lookupL t l).isSome then some d else none)
        else lookupL k l := by
  induction l with
  | nil => simp [lookupL]
  | cons p rest ih =>
    obtain ⟨a, b⟩ := p
    simp only [List.map_cons]
    by_cases hat : a = t
    · subst hat
      rw [show (if (a, b).1 = a then (a, d) else (a, b)) = (a, d) by simp]
      by_cases hka : k = a
      · subst hka
        simp [lookupL]
      · have hak : ¬a = k := fun hc => hka hc.symm
        simp [lookupL, hak, hka, ih]
    · rw [show (if (a, b).1 = t then (t, d) else (a, b)) = (a, b) by simp [hat]]
      by_cases hak : a = k
      · subst hak
        have hkt : ¬a = t := hat
        simp [lookupL, hkt]
      · simp [lookupL, hak, hat, ih]

theorem lookupL_setCustomDescriber (reg : Registry) (t : String) (d : Option Hook)
    (k : String) :
    lookupL k (setCustomDescriber reg t d) = if k = t then some d else lookupL k reg := by
  unfold setCustomDescriber
  rcases ho : lookupL t reg with _ | b
  · rw [if_neg (by simp [ho]), lookupL_append]
    by_cases hkt : k = t
    · subst hkt
      rw [ho]
      simp [lookupL]
    · rcases ho2 : lookupL k reg with _ | c
      · simp [ho2, lookupL, Ne.symm hkt, hkt]
      · simp [ho2, hkt]
  · rw [if_pos (by simp [ho]), lookupL_map_update]
    simp [ho]

-- ---------------------------------------------------------------------
-- C9: null hook disables the custom describer
-- ---------------------------------------------------------------------

/-- C9.  After `SetCustomDescriber(t, nil)`, describing any value behaves
exactly as if the registry had no entry for `t` at all - the default
per-kind rendering applies wherever a value of type `t` occurs - even
though the registry still holds an entry for `t` (mapping it to the nil
hook). -/
theorem c9_null_hook_default :
    ∀ (panicOnError : Bool) (reg : Registry) (t : String) (h : Heap) (fuel : Nat)
      (v : Val),
      Describe panicOnError (setCustomDescriber reg t none) h fuel v
        = Describe panicOnError (removeDescriber reg t) h fuel v
      ∧ lookupL t (setCustomDescriber reg t none) = some none := by
  intro panicOnError reg t h fuel v
  have hfun : activeHook (setCustomDescriber reg t none)
      = activeHook (removeDescriber reg t) := by
    funext ty
    unfold activeHook removeDescriber
    rw [lookupL_setCustomDescriber, lookupL_filter_ne]
    by_cases hty : ty = t
    · simp [hty]
    · simp [hty]
  constructor
  · unfold Describe describeCtx
    rw [hfun]
  · rw [lookupL_setCustomDescriber]
    simp

-- ---------------------------------------------------------------------
-- C10: zero and invalid values bypass custom describers
-- ---------------------------------------------------------------------

/-- C10.  For an invalid value, or a value that is the zero value of its
type, `describeReflect` never consults the custom-describer registry: its
result is the reference-check step followed directly by the default
per-kind rendering, for every registry. -/
theorem c10_zero_skips_hooks :
    ∀ (hooks : HookFun) (h : Heap) (labels : List (Nat × Nat)) (fuel : Nat)
      (v : Val) (asHex : Bool) (st : RState),
      isValidV v = false ∨ isZeroV h v = true →
      describeReflect hooks h labels (fuel + 1) v asHex st =
        match refStep h labels v st with
        | RefOut.stop st2 => some (Except.ok st2)
        | RefOut.go st2 => renderKind hooks h labels fuel v asHex st2 := by
  intro hooks h labels fuel v asHex st hzero
  have hel : hookEligible h v = false := by
    unfold hookEligible
    rcases hzero with hv | hz
    · simp [hv]
    · simp [hz]
  unfold describeReflect renderKind
  rw [renderT]
  cases refStep h labels v st with
  | stop st2 => rfl
  | go st2 => simp [hel]

/-- The zero `time.Time` struct, whose type has a built-in custom
describer in the source registry. -/
def hTime : Heap := [(0, Node.structNode "time.Time" true
  [("wall", Val.uintv .u64 0), ("ext", Val.leaf "int64" "0" true),
   ("loc", Val.ptrv none)])]

/-- A registry like the source's built-in one: a hook for `time.Time`. -/
def regTime : Registry :=
  [("time.Time", some (fun _ => Except.ok "time<SHOULD NOT APPEAR>"))]

/-- C10, witness: the zero `time.Time` is a zero value, and rendering it
with the time hook installed goes straight to the default per-kind
(struct) rendering. -/
theorem c10_witness :
    isZeroV hTime (Val.comp 0) = true
    ∧ describeReflect (activeHook regTime) hTime [] 10 (Val.comp 0) false ⟨[], []⟩
      = renderKind (activeHook regTime) hTime [] 9 (Val.comp 0) false ⟨[], []⟩ := by
  constructor
  · decide
  · have h10 := c10_zero_skips_hooks (activeHook regTime) hTime [] 9 (Val.comp 0)
      false ⟨[], []⟩ (Or.inr (by decide))
    rw [h10]
    rfl

-- ---------------------------------------------------------------------
-- C3: the recovery boundary of Describe
-- ---------------------------------------------------------------------

/-- C3.  Whenever the two-pass operation completes, `Describe` returns a
string: a panic anywhere in the traversal (in this model, raised by a
custom describer) is converted at the recovery boundary into the
diagnostic string when `PanicOnError` is unset, and propagates raw when it
is set.  (An input on which the traversal does not complete at all - see
the C1 development - never reaches the recovery boundary.) -/
theorem c3_recovery_boundary :
    ∀ (reg : Registry) (h : Heap) (fuel : Nat) (v : Val),
      (∀ s, describeCtx reg h fuel v = some (Except.ok s) →
        Describe false reg h fuel v = some (Except.ok s)
        ∧ Describe true reg h fuel v = some (Except.ok s))
      ∧ (∀ e, describeCtx reg h fuel v = some (Except.error e) →
        Describe false reg h fuel v
          = some (Except.ok ("go-describe: Unexpected error: " ++ e))
        ∧ Describe true reg h fuel v = some (Except.error e)) := by
  intro reg h fuel v
  constructor
  · intro s hs
    unfold Describe
    rw [hs]
    exact ⟨rfl, rfl⟩
  · intro e he
    unfold Describe
    rw [he]
    exact ⟨rfl, rfl⟩

/-- A registry whose hook for type `T` panics. -/
def regBoom : Registry := [("T", some (fun _ => Except.error "boom"))]

/-- C3, witness: with a panicking hook, `Describe` yields the diagnostic
string when `PanicOnError` is unset and propagates the panic when set. -/
theorem c3_witness :
    Describe false regBoom [] 5 (Val.leaf "T" "x" false)
      = some (Except.ok ("go-describe: Unexpected error: " ++ "boom"))
    ∧ Describe true regBoom [] 5 (Val.leaf "T" "x" false)
      = some (Except.error "boom") :=
  (c3_recovery_boundary regBoom [] 5 (Val.leaf "T" "x" false)).2 "boom" (by rfl)

-- ---------------------------------------------------------------------
-- C7: nil values of nilable kinds
-- ---------------------------------------------------------------------

/-- C7, counterexample.  The claim says every nil value of a nilable kind
other than Function - in particular a nil slice - renders as the literal
`nil`.  The renderer has no `IsNil` check for slices (or maps, or
channels): a nil `[]int` reaches `describeArray`, which prints the element
type and an empty bracket pair, producing `int[]`, not `nil`. -/
theorem c7_counterexample :
    describeCtx [] [(0, Node.arrNode "int" false true [])] 5 (Val.comp 0)
      = some (Except.ok "int[]")
    ∧ ("int[]" : String) ≠ "nil" := by
  exact ⟨by rfl, by decide⟩

/-- C7, amended.  Of the nilable kinds, only nil Pointers and nil
Interfaces render as the literal `nil`.  A nil Slice renders as its
element type followed by an empty `[]`, a nil Map as its key and value
types followed by an empty pair of braces, and a Channel (nil or not)
produces no output at all - the renderer never consults `IsNil` for
slices, maps or channels. -/
theorem c7_nilable_rendering :
    ∀ (hooks : HookFun) (h : Heap) (labels : List (Nat × Nat)) (fuel : Nat)
      (st : RState) (asHex : Bool),
      describeReflect hooks h labels (fuel + 2) (Val.ptrv none) asHex st
        = some (Except.ok (emit st (Token.text "nil")))
      ∧ describeReflect hooks h labels (fuel + 2) (Val.intfv none) asHex st
        = some (Except.ok (emit st (Token.text "nil")))
      ∧ (∀ id elemTy elemUnsigned isNil,
          lookupNode h id = some (Node.arrNode elemTy elemUnsigned isNil []) →
          renderKind hooks h labels (fuel + 2) (Val.comp id) asHex st
            = some (Except.ok (emit (emit (emit st
                (Token.text (getTypeName elemTy))) (Token.text "[")) (Token.text "]"))))
      ∧ (∀ id keyTy valTy isNil,
          lookupNode h id = some (Node.mapNode keyTy valTy isNil []) →
          renderKind hooks h labels (fuel + 2) (Val.comp id) asHex st
            = some (Except.ok (emit (emit (emit (emit (emit st
                (Token.text (getTypeName keyTy))) (Token.text ":"))
                (Token.text (getTypeName valTy))) (Token.text "\x7b"))
                (Token.text "\x7d"))))
      ∧ (∀ ty, renderKind hooks h labels (fuel + 2) (Val.chanv ty) asHex st
          = some (Except.ok st)) := by
  intro hooks h labels fuel st asHex
  refine ⟨?_, ?_, ?_, ?_, ?_⟩
  · unfold describeReflect
    rw [renderT]
    have hel : hookEligible h (Val.ptrv none) = false := by
      simp [hookEligible, isValidV, isZeroV, isZeroVF]
    simp only [refStep, refIdOf, hel, if_false]
    rw [renderT]
    rfl
  · unfold describeReflect
    rw [renderT]
    have hel : hookEligible h (Val.intfv none) = false := by
      simp [hookEligible, isValidV, isZeroV, isZeroVF]
    simp only [refStep, refIdOf, hel, if_false]
    rw [renderT]
    rfl
  · intro id elemTy elemUnsigned isNil hlook
    unfold renderKind
    rw [renderT]
    simp only [hlook]
    rw [renderT]
    rfl
  · intro id keyTy valTy isNil hlook
    unfold renderKind
    rw [renderT]
    simp only [hlook]
    rw [renderT]
    rfl
  · intro ty
    unfold renderKind
    rw [renderT]

/-- A heap holding a nil `[]int` slice (identity 0) and a nil
`map[string]int` (identity 1). -/
def hNil7 : Heap :=
  [(0, Node.arrNode "int" false true []), (1, Node.mapNode "string" "int" true [])]

/-- C7, witness: the amended rendering at concrete nil values - a nil
pointer gives `nil`, while the nil slice of `hNil7` gives `int[]`. -/
theorem c7_witness :
    describeReflect (activeHook []) hNil7 [] 2 (Val.ptrv none) false ⟨[], []⟩
      = some (Except.ok (emit ⟨[], []⟩ (Token.text "nil")))
    ∧ renderKind (activeHook []) hNil7 [] 2 (Val.comp 0) false ⟨[], []⟩
      = some (Except.ok (emit (emit (emit ⟨[], []⟩
          (Token.text (getTypeName "int"))) (Token.text "[")) (Token.text "]"))) := by
  have hh := c7_nilable_rendering (activeHook []) hNil7 [] 0 ⟨[], []⟩ false
  exact ⟨hh.1, hh.2.2.1 0 "int" false true (by rfl)⟩

-- ---------------------------------------------------------------------
-- Scan-pass key discipline (for C4/C5)
-- ---------------------------------------------------------------------

/-- The occurrence-count map has no duplicate keys (it models a Go map). -/
def KeysOK (cs : Counts) : Prop := (cs.map Prod.fst).Nodup

theorem bumpCount_keys (cs : Counts) (id : Nat) :
    (bumpCount cs id).map Prod.fst = cs.map Prod.fst := by
  induction cs with
  | nil => simp [bumpCount]
  | cons p rest ih =>
    by_cases hp : p.1 = id
    · simp only [bumpCount, List.map_cons] at ih ⊢
      simp [hp, ih]
    · simp only [bumpCount, List.map_cons] at ih ⊢
      simp [hp, ih]

theorem KeysOK_bumpCount {cs : Counts} (id : Nat) (hok : KeysOK cs) :
    KeysOK (bumpCount cs id) := by
  unfold KeysOK
  rw [bumpCount_keys]
  exact hok

theorem KeysOK_append_new {cs : Counts} {id c : Nat} (hok : KeysOK cs)
    (hnew : lookupL id cs = none) : KeysOK (cs ++ [(id, c)]) := by
  unfold KeysOK
  rw [List.map_append]
  rw [List.nodup_append]
  refine ⟨hok, by simp, ?_⟩
  intro x hx hx2
  simp at hx2
  rw [hx2] at hx
  exact (lookupL_none_iff _ cs).1 hnew hx

/-- The scan pass preserves the no-duplicate-keys discipline of the
occurrence-count map. -/
theorem scanT_keys (h : Heap) : ∀ (fuel : Nat) (task : STask) (cs cs2 : Counts),
    scanT h fuel task cs = some cs2 → KeysOK cs → KeysOK cs2 := by
  intro fuel
  induction fuel with
  | zero =>
    intro task cs cs2 hstep
    simp [scanT] at hstep
  | succ fuel ih =>
    intro task cs cs2 hstep hok
    cases task with
    | one v =>
      cases v with
      | ptrv o =>
        cases o with
        | none =>
          simp [scanT] at hstep
          subst hstep
          exact hok
        | some t =>
          rw [scanT] at hstep
          exact ih (.one t) cs cs2 hstep hok
      | intfv o =>
        cases o with
        | none =>
          simp [scanT] at hstep
          subst hstep
          exact hok
        | some t =>
          rw [scanT] at hstep
          exact ih (.one t) cs cs2 hstep hok
      | comp id =>
        rw [scanT] at hstep
        rcases hn : lookupNode h id with _ | node
        · rw [hn] at hstep
          simp at hstep
          subst hstep
          exact hok
        · rw [hn] at hstep
          cases node with
          | arrNode elemTy elemUnsigned isNil elems =>
            rcases hl : lookupL id cs with _ | c
            · rw [hl] at hstep
              simp at hstep
              exact ih (.many elems) (cs ++ [(id, 1)]) cs2 hstep
                (KeysOK_append_new hok hl)
            · rw [hl] at hstep
              simp at hstep
              subst hstep
              exact KeysOK_bumpCount id hok
          | mapNode keyTy valTy isNil entries =>
            rcases hl : lookupL id cs with _ | c
            · rw [hl] at hstep
              simp at hstep
              exact ih (.many (entries.map Prod.snd)) (cs ++ [(id, 1)]) cs2 hstep
                (KeysOK_append_new hok hl)
            · rw [hl] at hstep
              simp at hstep
              subst hstep
              exact KeysOK_bumpCount id hok
          | structNode name addressable fields =>
            cases addressable with
            | true =>
              simp only [if_true] at hstep
              rcases hl : lookupL id cs with _ | c
              · rw [hl] at hstep
                simp at hstep
                exact ih (.many (fields.map Prod.snd)) (cs ++ [(id, 1)]) cs2 hstep
                  (KeysOK_append_new hok hl)
              · rw [hl] at hstep
                simp at hstep
                subst hstep
                exact KeysOK_bumpCount id hok
            | false =>
              simp only [Bool.false_eq_true, if_false] at hstep
              exact ih (.many (fields.map Prod.snd)) cs cs2 hstep hok
      | leaf ty txt z =>
        simp [scanT] at hstep
        subst hstep
        exact hok
      | strv s =>
        simp [scanT] at hstep
        subst hstep
        exact hok
      | uintv k n =>
        simp [scanT] at hstep
        subst hstep
        exact hok
      | chanv ty =>
        simp [scanT] at hstep
        subst hstep
        exact hok
      | funcv a b c =>
        simp [scanT] at hstep
        subst hstep
        exact hok
      | invalidV =>
        simp [scanT] at hstep
        subst hstep
        exact hok
    | many vs =>
      cases vs with
      | nil =>
        simp [scanT] at hstep
        subst hstep
        exact hok
      | cons x xs =>
        rw [scanT] at hstep
        rcases hx : scanT h fuel (.one x) cs with _ | csm
        · rw [hx] at hstep
          simp at hstep
        · rw [hx] at hstep
          simp at hstep
          exact ih (.many xs) csm cs2 hstep (ih (.one x) cs csm hx hok)

-- ---------------------------------------------------------------------
-- C4/C5: the reference-name table
-- ---------------------------------------------------------------------

theorem buildRefNamesAux_snd : ∀ (cs : Counts) (n : Nat),
    (buildRefNamesAux n cs).map Prod.snd
      = List.range' n ((cs.filter fun p => 1 < p.2).length) := by
  intro cs
  induction cs with
  | nil =>
    intro n
    simp [buildRefNamesAux]
  | cons p rest ih =>
    intro n
    obtain ⟨a, c⟩ := p
    by_cases hc : 1 < c
    · rw [buildRefNamesAux, if_pos hc, List.filter_cons_of_pos (by simp [hc])]
      simp only [List.map_cons, List.length_cons, List.range'_succ]
      rw [ih (n + 1)]
    · rw [buildRefNamesAux, if_neg hc, List.filter_cons_of_neg (by simp [hc])]
      exact ih n

theorem buildRefNamesAux_keys : ∀ (cs : Counts) (n : Nat),
    (buildRefNamesAux n cs).map Prod.fst
      = (cs.filter fun p => 1 < p.2).map Prod.fst := by
  intro cs
  induction cs with
  | nil =>
    intro n
    simp [buildRefNamesAux]
  | cons p rest ih =>
    intro n
    obtain ⟨a, c⟩ := p
    by_cases hc : 1 < c
    · rw [buildRefNamesAux, if_pos hc, List.filter_cons_of_pos (by simp [hc])]
      simp only [List.map_cons]
      rw [ih (n + 1)]
    · rw [buildRefNamesAux, if_neg hc, List.filter_cons_of_neg (by simp [hc])]
      exact ih n

/-- C4.  From any counts map the scan pass produces, the reference table
built by `findDuplicates` assigns as labels exactly the consecutive
positive integers 1, 2, ..., k (where k is the number of identities with
count above 1), and an identity receives a label exactly when its
occurrence count after the scan exceeds 1. -/
theorem c4_label_table :
    ∀ (h : Heap) (fuel : Nat) (v : Val) (cs : Counts),
      scanCounts h fuel v = some cs →
      ((buildReferenceNames cs).map Prod.snd
        = List.range' 1 ((cs.filter fun p => 1 < p.2).length))
      ∧ ∀ p : Nat, (lookupL p (buildReferenceNames cs)).isSome
          ↔ ∃ c, lookupL p cs = some c ∧ 1 < c := by
  intro h fuel v cs hscan
  have hok : KeysOK cs :=
    scanT_keys h fuel (.one v) [] cs hscan (by simp [KeysOK])
  constructor
  · exact buildRefNamesAux_snd cs 1
  · intro p
    unfold buildReferenceNames
    rw [lookupL_isSome_iff, buildRefNamesAux_keys]
    constructor
    · intro hp
      obtain ⟨q, hqmem, hqfst⟩ := List.mem_map.1 hp
      have hqf := List.mem_filter.1 hqmem
      refine ⟨q.2, ?_, by simpa using hqf.2⟩
      rw [← hqfst]
      exact (lookupL_some_iff_mem q.1 q.2 cs hok).2 (by simpa using hqf.1)
    · rintro ⟨c, hlc, hc⟩
      have hmem : (p, c) ∈ cs := (lookupL_some_iff_mem p c cs hok).1 hlc
      exact List.mem_map.2 ⟨(p, c), List.mem_filter.2 ⟨hmem, by simpa using hc⟩, rfl⟩

/-- A slice (identity 0) holding two shared sub-slices, each referenced
twice: sub-slice 1 is discovered before sub-slice 2 by the scan. -/
def hTwoShared : Heap :=
  [(0, Node.arrNode "interface \x7b\x7d" false false
      [Val.comp 1, Val.comp 1, Val.comp 2, Val.comp 2]),
   (1, Node.arrNode "int" false false [Val.leaf "int" "7" false]),
   (2, Node.arrNode "int" false false [Val.leaf "int" "8" false])]

/-- C4, witness: the label table of `hTwoShared`'s counts assigns the
labels 1 and 2, and identity 1 (count 2) holds a label while identity 0
(count 1) does not. -/
theorem c4_witness :
    ((buildReferenceNames [(0, 1), (1, 2), (2, 2)]).map Prod.snd
      = List.range'
          1 (([(0, 1), (1, 2), (2, 2)].filter fun p => 1 < p.2).length))
    ∧ ((lookupL 1 (buildReferenceNames [(0, 1), (1, 2), (2, 2)])).isSome
      ↔ ∃ c, lookupL 1 [(0, 1), (1, 2), (2, 2)] = some c ∧ 1 < c) := by
  have hc4 := c4_label_table hTwoShared 20 (Val.comp 0) [(0, 1), (1, 2), (2, 2)]
    (by rfl)
  exact ⟨hc4.1, hc4.2 1⟩

/-- C5, counterexample.  The claim says the identity discovered earliest
among those with count above 1 receives label 1.  Scanning `hTwoShared`
discovers the shared identities in the order 1 then 2 (counts map, in
insertion order: `[(0,1),(1,2),(2,2)]`).  The label loop of
`findDuplicates`, however, iterates a Go map with `range`, whose order is
implementation-defined: under the equally admissible iteration order
`[(0,1),(2,2),(1,2)]` - a permutation of the same counts - identity 1
receives label 2, not label 1. -/
theorem c5_counterexample :
    scanCounts hTwoShared 20 (Val.comp 0) = some [(0, 1), (1, 2), (2, 2)]
    ∧ List.Perm [(0, 1), (2, 2), (1, 2)] [(0, 1), (1, 2), (2, 2)]
    ∧ buildReferenceNames [(0, 1), (2, 2), (1, 2)] = [(2, 1), (1, 2)]
    ∧ lookupL 1 (buildReferenceNames [(0, 1), (2, 2), (1, 2)]) = some 2
    ∧ lookupL 1 (buildReferenceNames [(0, 1), (2, 2), (1, 2)]) ≠ some 1 := by
  exact ⟨by rfl, by decide, by rfl, by rfl, by decide⟩

/-- C5, amended.  Labels are assigned as consecutive positive integers
starting at 1 in the order the counts map is iterated; that iteration
order is implementation-defined (any permutation of the scan's counts),
and only the number of labels - not which shared identity gets which
label - is determined by the input. -/
theorem c5_labels_follow_iteration_order :
    ∀ (h : Heap) (fuel : Nat) (v : Val) (cs iter : Counts),
      scanCounts h fuel v = some cs → iter.Perm cs →
      ((buildReferenceNames iter).map Prod.snd
        = List.range' 1 ((iter.filter fun p => 1 < p.2).length))
      ∧ (iter.filter fun p => 1 < p.2).length
        = (cs.filter fun p => 1 < p.2).length := by
  intro h fuel v cs iter hscan hperm
  exact ⟨buildRefNamesAux_snd iter 1, (hperm.filter _).length_eq⟩

/-- C5, witness: the amended statement at `hTwoShared` with the permuted
iteration order of the counterexample. -/
theorem c5_witness :
    ((buildReferenceNames [(0, 1), (2, 2), (1, 2)]).map Prod.snd
      = List.range'
          1 (([(0, 1), (2, 2), (1, 2)].filter fun p => 1 < p.2).length))
    ∧ (([(0, 1), (2, 2), (1, 2)] : Counts).filter fun p => 1 < p.2).length
      = (([(0, 1), (1, 2), (2, 2)] : Counts).filter fun p => 1 < p.2).length := by
  exact c5_labels_follow_iteration_order hTwoShared 20 (Val.comp 0)
    [(0, 1), (1, 2), (2, 2)] [(0, 1), (2, 2), (1, 2)] (by rfl) (by decide)

-- ---------------------------------------------------------------------
-- C1: termination, and the map-key cycle that breaks it
-- ---------------------------------------------------------------------

/-- A map whose single key is a pointer back to the map itself, as built
by `type M map[*M]int ; m := M{} ; m[&m] = 1`.  The cycle runs through the
map's *key*: the scan pass (which walks only map values) counts the map's
identity once, so it receives no reference label, while the render pass
(which walks keys as well) meets it again and again. -/
def hKeyCycle : Heap := [(0, Node.mapNode "*M" "int" false
  [(Val.ptrv (some (Val.comp 0)), Val.leaf "int" "1" false)])]

theorem c1_render_diverges : ∀ (fuel : Nat) (st : RState),
    renderT (activeHook []) hKeyCycle [] fuel (RTask.one (Val.comp 0) false) st
      = none := by
  intro fuel
  induction fuel using Nat.strong_induction_on with
  | _ fuel ih =>
    intro st
    match fuel with
    | 0 => rfl
    | 1 => rfl
    | 2 => rfl
    | 3 => rfl
    | 4 => rfl
    | k + 5 =>
      have hin : ∀ st2 : RState,
          renderT (activeHook [])
            [(0, Node.mapNode "*M" "int" false
              [(Val.ptrv (some (Val.comp 0)), Val.leaf "int" "1" false)])] []
            k (RTask.one (Val.comp 0) false) st2
            = none := fun st2 => ih k (by omega) st2
      simp [renderT, rbind, refStep, refIdOf, lookupNode, lookupL, hookEligible,
        isValidV, isZeroV, isZeroVF, typeOfV, activeHook, hKeyCycle, getTypeName,
        hin]

/-- C1.  The repository's own documentation promises that recursive data
is handled ("can describe structures that would cause %v to stack
overflow"), and the claim states that `Describe` terminates on every value
graph.  On the self-keyed map, however, the two-pass operation never
completes, for any amount of fuel: the render pass re-enters the map
through its key forever (in Go: unbounded recursion, ending in a fatal
stack overflow that the `recover` boundary cannot catch). -/
theorem c1_key_cycle_never_completes :
    ∀ fuel : Nat, describeCtx [] hKeyCycle fuel (Val.comp 0) = none := by
  intro fuel
  match fuel with
  | 0 => rfl
  | 1 => rfl
  | 2 => rfl
  | k + 3 =>
    have hscan : findDuplicatesInternal hKeyCycle (k + 3) (Val.comp 0) []
        = some [(0, 1)] := by
      simp [findDuplicatesInternal, scanT, hKeyCycle, lookupNode, lookupL]
    have hrender := c1_render_diverges (k + 3) ⟨[], []⟩
    simp only [describeCtx, describeTokens, hscan]
    have hlab : buildReferenceNames [(0, 1)] = [] := by rfl
    rw [hlab]
    unfold describeReflect
    rw [hrender]

-- ---------------------------------------------------------------------
-- C2: back-references never precede their first-instance marks
-- ---------------------------------------------------------------------

/-- The reference names whose first-instance marks occur in a token list,
accumulated left to right onto `m`. -/
def collectMarks : List Nat → List Token → List Nat
  | m, [] => m
  | m, Token.refMark n :: rest => collectMarks (n :: m) rest
  | m, Token.backRef _ :: rest => collectMarks m rest
  | m, Token.text _ :: rest => collectMarks m rest

/-- Left-to-right check that every back-reference token refers to a
reference name whose first-instance mark appeared strictly earlier
(`m` holds the marks already seen). -/
def scanOK : List Nat → List Token → Bool
  | _, [] => true
  | m, Token.refMark n :: rest => scanOK (n :: m) rest
  | m, Token.backRef n :: rest => m.contains n && scanOK m rest
  | m, Token.text _ :: rest => scanOK m rest

theorem collectMarks_append : ∀ (a b : List Token) (m : List Nat),
    collectMarks m (a ++ b) = collectMarks (collectMarks m a) b := by
  intro a
  induction a with
  | nil =>
    intro b m
    rfl
  | cons t rest ih =>
    intro b m
    cases t with
    | text s => simpa [collectMarks] using ih b m
    | refMark n => simpa [collectMarks] using ih b (n :: m)
    | backRef n => simpa [collectMarks] using ih b m

theorem scanOK_append : ∀ (a b : List Token) (m : List Nat),
    scanOK m (a ++ b) = (scanOK m a && scanOK (collectMarks m a) b) := by
  intro a
  induction a with
  | nil =>
    intro b m
    simp [scanOK, collectMarks]
  | cons t rest ih =>
    intro b m
    cases t with
    | text s => simpa [scanOK, collectMarks] using ih b m
    | refMark n => simpa [scanOK, collectMarks] using ih b (n :: m)
    | backRef n =>
      simp [scanOK, collectMarks, ih b m, Bool.and_assoc]

theorem mem_collectMarks_mono : ∀ (ts : List Token) (m : List Nat) (n : Nat),
    n ∈ m → n ∈ collectMarks m ts := by
  intro ts
  induction ts with
  | nil =>
    intro m n hm
    exact hm
  | cons t rest ih =>
    intro m n hm
    cases t with
    | text s => exact ih m n hm
    | refMark k => exact ih (k :: m) n (List.mem_cons_of_mem k hm)
    | backRef k => exact ih m n hm

/-- The render invariant: the output so far has no forward back-reference,
and every identity in `seenReferences` already has its first-instance mark
in the output. -/
def RInv (labels : List (Nat × Nat)) (st : RState) : Prop :=
  scanOK [] st.out = true
  ∧ ∀ id n, id ∈ st.seen → lookupL id labels = some n →
      n ∈ collectMarks [] st.out

theorem RInv_emit_text {labels : List (Nat × Nat)} {st : RState} (s : String)
    (h : RInv labels st) : RInv labels (emit st (.text s)) := by
  obtain ⟨hok, hseen⟩ := h
  constructor
  · show scanOK [] (st.out ++ [Token.text s]) = true
    rw [scanOK_append]
    simp [hok, scanOK]
  · intro id n hid hlook
    show n ∈ collectMarks [] (st.out ++ [Token.text s])
    rw [collectMarks_append]
    exact mem_collectMarks_mono _ _ _ (hseen id n hid hlook)

theorem RInv_emit_refMark {labels : List (Nat × Nat)} {st : RState} {id n : Nat}
    (h : RInv labels st) (hlook : lookupL id labels = some n) :
    RInv labels ⟨st.out ++ [Token.refMark n], id :: st.seen⟩ := by
  obtain ⟨hok, hseen⟩ := h
  constructor
  · show scanOK [] (st.out ++ [Token.refMark n]) = true
    rw [scanOK_append]
    simp [hok, scanOK]
  · intro id2 n2 hid2 hlook2
    show n2 ∈ collectMarks [] (st.out ++ [Token.refMark n])
    rw [collectMarks_append]
    show n2 ∈ collectMarks (collectMarks [] st.out) [Token.refMark n]
    have : collectMarks (collectMarks [] st.out) [Token.refMark n]
        = n :: collectMarks [] st.out := rfl
    rw [this]
    rcases List.mem_cons.1 hid2 with heq | hmem
    · subst heq
      rw [hlook] at hlook2
      have : n = n2 := Option.some.inj hlook2
      subst this
      exact List.mem_cons_self n _
    · exact List.mem_cons_of_mem n (hseen id2 n2 hmem hlook2)

theorem RInv_emit_backRef {labels : List (Nat × Nat)} {st : RState} {id n : Nat}
    (h : RInv labels st) (hseen : id ∈ st.seen)
    (hlook : lookupL id labels = some n) :
    RInv labels (emit st (.backRef n)) := by
  obtain ⟨hok, hmarks⟩ := h
  have hmem : n ∈ collectMarks [] st.out := hmarks id n hseen hlook
  constructor
  · show scanOK [] (st.out ++ [Token.backRef n]) = true
    rw [scanOK_append]
    have hc : (collectMarks [] st.out).contains n = true := by
      exact List.elem_iff.2 hmem
    simp [hok, scanOK, hc, hmem]
  · intro id2 n2 hid2 hlook2
    show n2 ∈ collectMarks [] (st.out ++ [Token.backRef n])
    rw [collectMarks_append]
    exact mem_collectMarks_mono _ _ _ (hmarks id2 n2 hid2 hlook2)

theorem refStep_inv {h : Heap} {labels : List (Nat × Nat)} {v : Val} {st : RState}
    (hinv : RInv labels st) :
    (∀ st2, refStep h labels v st = RefOut.stop st2 → RInv labels st2)
    ∧ (∀ st2, refStep h labels v st = RefOut.go st2 → RInv labels st2) := by
  constructor
  · intro st2 hstop
    unfold refStep at hstop
    split at hstop
    · split at hstop
      · split at hstop
        · cases hstop
          exact RInv_emit_backRef hinv (List.elem_iff.1 (by assumption)) (by assumption)
        · simp at hstop
      · simp at hstop
    · simp at hstop
  · intro st2 hgo
    unfold refStep at hgo
    split at hgo
    · split at hgo
      · split at hgo
        · simp at hgo
        · cases hgo
          exact RInv_emit_refMark hinv (by assumption)
      · cases hgo
        exact hinv
    · cases hgo
      exact hinv

theorem rbind_ok {r : Option (Except String RState)}
    {f : RState → Option (Except String RState)} {b : RState}
    (hres : rbind r f = some (Except.ok b)) :
    ∃ a, r = some (Except.ok a) ∧ f a = some (Except.ok b) := by
  cases r with
  | none => simp [rbind] at hres
  | some e =>
    cases e with
    | error err => simp [rbind] at hres
    | ok a => exact ⟨a, rfl, hres⟩

theorem ok_inj {a b : RState}
    (h : (some (Except.ok a) : Option (Except String RState))
      = some (Except.ok b)) : a = b := by
  simpa using h

/-- Invariant preservation for the whole render engine: any completed
render step keeps the no-forward-reference invariant. -/
theorem renderT_inv (hooks : HookFun) (h : Heap) (labels : List (Nat × Nat)) :
    ∀ (fuel : Nat) (task : RTask) (st st2 : RState),
      renderT hooks h labels fuel task st = some (Except.ok st2) →
      RInv labels st → RInv labels st2 := by
  intro fuel
  induction fuel with
  | zero =>
    intro task st st2 hstep
    simp [renderT] at hstep
  | succ fuel ih =>
    intro task st st2 hstep hinv
    cases task with
    | one v asHex =>
      rw [renderT] at hstep
      split at hstep
      · rename_i heq
        cases ok_inj hstep
        exact (refStep_inv hinv).1 _ heq
      · rename_i heq
        have hinv3 := (refStep_inv hinv).2 _ heq
        split at hstep
        · split at hstep
          · split at hstep
            · cases ok_inj hstep
              exact RInv_emit_text _ hinv3
            · simp at hstep
          · exact ih _ _ _ hstep hinv3
        · exact ih _ _ _ hstep hinv3
    | kind v asHex =>
      cases v with
      | leaf ty txt z =>
        rw [renderT] at hstep
        cases ok_inj hstep
        exact RInv_emit_text txt hinv
      | strv s =>
        rw [renderT] at hstep
        cases ok_inj hstep
        exact RInv_emit_text _ hinv
      | uintv k n =>
        rw [renderT] at hstep
        cases ok_inj hstep
        exact RInv_emit_text _ hinv
      | invalidV =>
        rw [renderT] at hstep
        cases ok_inj hstep
        exact RInv_emit_text _ hinv
      | chanv ty =>
        rw [renderT] at hstep
        cases ok_inj hstep
        exact hinv
      | funcv a b c =>
        rw [renderT] at hstep
        cases ok_inj hstep
        exact hinv
      | ptrv o =>
        cases o with
        | none =>
          rw [renderT] at hstep
          cases ok_inj hstep
          exact RInv_emit_text _ hinv
        | some t =>
          rw [renderT] at hstep
          exact ih _ _ _ hstep (RInv_emit_text _ hinv)
      | intfv o =>
        cases o with
        | none =>
          rw [renderT] at hstep
          cases ok_inj hstep
          exact RInv_emit_text _ hinv
        | some t =>
          rw [renderT] at hstep
          exact ih _ _ _ hstep (RInv_emit_text _ hinv)
      | comp id =>
        rw [renderT] at hstep
        rcases hn : lookupNode h id with _ | node
        · rw [hn] at hstep
          cases ok_inj hstep
          exact hinv
        · rw [hn] at hstep
          cases node with
          | arrNode elemTy elemUnsigned isNil elems =>
            obtain ⟨mid, hmid, hfin⟩ := rbind_ok hstep
            have hmidInv := ih _ _ _ hmid
              (RInv_emit_text _ (RInv_emit_text _ hinv))
            cases ok_inj hfin
            exact RInv_emit_text _ hmidInv
          | mapNode keyTy valTy isNil entries =>
            obtain ⟨mid, hmid, hfin⟩ := rbind_ok hstep
            have hmidInv := ih _ _ _ hmid
              (RInv_emit_text _ (RInv_emit_text _ (RInv_emit_text _
                (RInv_emit_text _ hinv))))
            cases ok_inj hfin
            exact RInv_emit_text _ hmidInv
          | structNode name addressable fields =>
            obtain ⟨mid, hmid, hfin⟩ := rbind_ok hstep
            have hmidInv := ih _ _ _ hmid
              (RInv_emit_text _ (RInv_emit_text _ hinv))
            cases ok_inj hfin
            exact RInv_emit_text _ hmidInv
    | arrElems asHex isFirst xs =>
      cases xs with
      | nil =>
        rw [renderT] at hstep
        cases ok_inj hstep
        exact hinv
      | cons x rest =>
        rw [renderT] at hstep
        obtain ⟨mid, hmid, hrest⟩ := rbind_ok hstep
        have hsep : RInv labels (if isFirst then st else emit st (.text " ")) := by
          cases isFirst
          · exact RInv_emit_text _ hinv
          · exact hinv
        exact ih _ _ _ hrest (ih _ _ _ hmid hsep)
    | mapEntries isFirst xs =>
      cases xs with
      | nil =>
        rw [renderT] at hstep
        cases ok_inj hstep
        exact hinv
      | cons kv rest =>
        obtain ⟨k, v⟩ := kv
        rw [renderT] at hstep
        obtain ⟨mid1, hmid1, hrest1⟩ := rbind_ok hstep
        obtain ⟨mid2, hmid2, hrest2⟩ := rbind_ok hrest1
        have hsep : RInv labels (if isFirst then st else emit st (.text " ")) := by
          cases isFirst
          · exact RInv_emit_text _ hinv
          · exact hinv
        have h1 := ih _ _ _ hmid1 hsep
        have h2 := ih _ _ _ hmid2 (RInv_emit_text _ h1)
        exact ih _ _ _ hrest2 h2
    | structFields isFirst xs =>
      cases xs with
      | nil =>
        rw [renderT] at hstep
        cases ok_inj hstep
        exact hinv
      | cons fv rest =>
        obtain ⟨fname, v⟩ := fv
        rw [renderT] at hstep
        obtain ⟨mid, hmid, hrest⟩ := rbind_ok hstep
        have hsep : RInv labels (if isFirst then st else emit st (.text " ")) := by
          cases isFirst
          · exact RInv_emit_text _ hinv
          · exact hinv
        have h1 := ih _ _ _ hmid (RInv_emit_text _ (RInv_emit_text _ hsep))
        exact ih _ _ _ hrest h1

/-- C2.  In every token stream the two-pass `describe` operation
produces, each back-reference token `$n` occurs only after the
first-instance mark `n->` for the same reference name has been emitted
earlier in the same output (`scanOK` checks exactly that, left to right):
an identity enters the seen set exactly when its first full rendering
begins, and every later visit emits only the back-reference. -/
theorem c2_no_forward_references :
    ∀ (hooks : HookFun) (h : Heap) (fuel : Nat) (v : Val) (out : List Token),
      describeTokens hooks h fuel v = some (Except.ok out) →
      scanOK [] out = true := by
  intro hooks h fuel v out hstep
  unfold describeTokens at hstep
  split at hstep
  · simp at hstep
  · rename_i cs hscan
    split at hstep
    · simp at hstep
    · simp at hstep
    · rename_i stF hr
      simp only [Option.some.injEq, Except.ok.injEq] at hstep
      have hinv0 : RInv (buildReferenceNames cs) ⟨[], []⟩ := by
        constructor
        · rfl
        · intro id n hid
          simp at hid
      have hfin := renderT_inv hooks h (buildReferenceNames cs) fuel
        (.one v false) ⟨[], []⟩ stF hr hinv0
      rw [← hstep]
      exact hfin.1

/-- The self-referential map `m := map[string]interface{}{} ; m["mykey"] = m`
of the repository's own `TestRecursiveMap`. -/
def hSelfMap : Heap := [(0, Node.mapNode "string" "interface \x7b\x7d" false
  [(Val.strv "mykey", Val.intfv (some (Val.comp 0)))])]

/-- C2, witness: describing the self-referential map emits the reference
mark `1->` before the back-reference `$1`, and the token stream passes the
forward-reference check. -/
theorem c2_witness :
    describeTokens (activeHook []) hSelfMap 20 (Val.comp 0)
      = some (Except.ok [Token.refMark 1, Token.text "string", Token.text ":",
          Token.text "interface", Token.text "\x7b", Token.text "\"mykey\"",
          Token.text "=", Token.text "@", Token.backRef 1, Token.text "\x7d"])
    ∧ scanOK [] [Token.refMark 1, Token.text "string", Token.text ":",
          Token.text "interface", Token.text "\x7b", Token.text "\"mykey\"",
          Token.text "=", Token.text "@", Token.backRef 1, Token.text "\x7d"]
        = true := by
  constructor
  · rfl
  · exact c2_no_forward_references (activeHook []) hSelfMap 20 (Val.comp 0) _
      (by rfl)
